import Mathlib

/-!
Verification of the history parsing and analysis pipeline of `freq.py`.

Strings are modelled as `List Char`.  Each Python helper used by the claims
is translated into an executable Lean definition:

* `pyStrip`, `pySplit`, `findSub`, `pyContains`, `pyIsDigit` model
  `str.strip()`, `str.split()`, `str.find`, the `in` substring test and
  `str.isdigit()` on ASCII text;
* the two fixed regular expressions of `parse_zsh_history`
  (`: (\d{10}):` and `: \d{10}:\d+;`) are modelled by the explicit
  left-to-right scanners `searchTs` and `searchDurEnd`;
* Python integer truthiness (`if start_time and ...`,
  `current_timestamp if current_timestamp else now`) is modelled by
  explicit comparisons with 0;
* the Python `sorted` builtin (a stable sort) is modelled by
  `List.insertionSort`, which is also stable for the comparators used
  here (for ties the earlier element stays first, as in CPython, both
  for ascending `key=` sorts and for `reverse=True`);
* `defaultdict(int)` tallies and the alias `dict` are modelled by
  association lists (`corrBump`/`corrLookup`, `dictInsert`/`dictGet`)
  that preserve insertion order and implement last-writer-wins lookup.

File input (`for line in f`) is modelled by an explicit `List Str` of
lines, and the wall clock (`datetime.datetime.now()`) by an explicit
`clock : Int` parameter.
-/

abbrev Str : Type := List Char

abbrev HistRec : Type := Str × Int

/-- Whitespace test used by `str.strip()` / `str.split()`. -/
def pyIsSpace (c : Char) : Bool :=
  c == ' ' || c == '\t' || c == '\n' || c == '\r' || c == '\x0b' || c == '\x0c'

/-- Model of `str.strip()`: drop whitespace from both ends. -/
def pyStrip (l : Str) : Str :=
  ((l.dropWhile pyIsSpace).reverse.dropWhile pyIsSpace).reverse

/-- Accumulator worker for `pySplit`; the accumulator holds the current
word reversed. -/
def pySplitGo : List Char → List Char → List (List Char)
  | [], acc => if acc.isEmpty then [] else [acc.reverse]
  | c :: cs, acc =>
      if pyIsSpace c then
        if acc.isEmpty then pySplitGo cs [] else acc.reverse :: pySplitGo cs []
      else pySplitGo cs (c :: acc)

/-- Model of `str.split()` with no argument: split on whitespace runs,
discarding empty words. -/
def pySplit (l : Str) : List (List Char) :=
  pySplitGo l []

/-- Model of `str.find(needle)`: index of the leftmost occurrence. -/
def findSub (needle : Str) : Str → Option Nat
  | [] => if needle.isPrefixOf ([] : Str) then some 0 else none
  | c :: t =>
      if needle.isPrefixOf (c :: t) then some 0
      else (findSub needle t).map (fun n => n + 1)

/-- Model of the Python substring test `needle in hay`. -/
def pyContains (needle hay : Str) : Bool :=
  (findSub needle hay).isSome

/-- ASCII digit test (the `\d` class and `str.isdigit()` on the inputs
this tool handles). -/
def pyIsDigit (c : Char) : Bool :=
  c.isDigit

/-- Model of `str.isdigit()`: nonempty and all digits. -/
def pyIsDigitStr (l : Str) : Bool :=
  !l.isEmpty && l.all pyIsDigit

/-- Model of `int(s)` for a string of decimal digits. -/
def digitsToNat (l : Str) : Nat :=
  l.foldl (fun n c => 10 * n + (c.toNat - 48)) 0

/-- The single-quote character. -/
def squote : Char := Char.ofNat 39

/-- The double-quote character. -/
def dquote : Char := Char.ofNat 34

def exportStr : Str := ['e', 'x', 'p', 'o', 'r', 't']

def echoStr : Str := ['e', 'c', 'h', 'o']

def setStr : Str := ['s', 'e', 't']

def aliasStr : Str := ['a', 'l', 'i', 'a', 's']

def malformedStr : Str := ['m', 'a', 'l', 'f', 'o', 'r', 'm', 'e', 'd']

/-- The literal corrupted token `35'`. -/
def tok35 : Str := ['3', '5', squote]

/-- The literal corrupted token `00;35'`. -/
def tok0035 : Str := ['0', '0', ';', '3', '5', squote]

/-- The literal separator `:0;` preferred by the zsh parser fast path. -/
def zeroSep : Str := [':', '0', ';']

/-- Embedding of `extract_command(full_cmd, full_command)` (freq.py
lines 211-232). -/
def extract_command (fullCmd : Str) (fullCommand : Bool) : Str :=
  if fullCmd.isEmpty then []
  else if fullCommand then fullCmd
  else
    match pySplit fullCmd with
    | [] => []
    | firstWord :: _ =>
        if (firstWord.getLast? == some squote)
            && (pyIsDigitStr firstWord || firstWord == tok35 || firstWord == tok0035) then
          if exportStr.isPrefixOf fullCmd then exportStr
          else if pyContains exportStr fullCmd then exportStr
          else if pyContains echoStr fullCmd then echoStr
          else if pyContains setStr fullCmd then setStr
          else if pyContains aliasStr fullCmd then aliasStr
          else malformedStr
        else firstWord

/-- A date filter value: `None`, or a pair of optional start/end bounds,
as produced by `parse_date_filter`. -/
abbrev DateFilter : Type := Option (Option Int × Option Int)

/-- Embedding of the two-line date check used identically at freq.py
lines 129-132 (zsh parser), 187-192 (bash parser) and 679-682 (main):
`if start_time and timestamp < start_time: skip;
 if end_time and timestamp > end_time: skip`.
Python truthiness of an integer is `≠ 0`, of `None` is false. -/
def dateRejects (df : DateFilter) (t : Int) : Bool :=
  match df with
  | none => false
  | some (s, e) =>
      (match s with
       | some sv => !(sv == 0) && decide (t < sv)
       | none => false)
      ||
      (match e with
       | some ev => !(ev == 0) && decide (ev < t)
       | none => false)

/-- Embedding of the command-filter test
`command.startswith(command_filter + " ") or command == command_filter`
(freq.py lines 155 and 198, and again in `run_analysis`, line 705). -/
def cmdMatches (filt cmd : Str) : Bool :=
  (filt ++ [' ']).isPrefixOf cmd || cmd == filt

/-- Keep-test for an optional command filter. -/
def cmdKeeps (cf : Option Str) (cmd : Str) : Bool :=
  match cf with
  | none => true
  | some filt => cmdMatches filt cmd

/-- Match of the regex `: (\d{10}):` at the head of `l`, returning the
captured ten digits. -/
def tsMatchAt (l : Str) : Option Str :=
  match l with
  | ':' :: ' ' :: rest =>
      let t := rest.take 10
      if t.length == 10 && t.all pyIsDigit && ((rest.drop 10).head? == some ':') then
        some t
      else none
  | _ => none

/-- Model of `re.search(r': (\d{10}):', line)`: leftmost match, returning
the captured group. -/
def searchTs : Str → Option Str
  | [] => none
  | c :: t =>
      match tsMatchAt (c :: t) with
      | some g => some g
      | none => searchTs t

/-- Match of the regex `: \d{10}:\d+;` at the head of `l`, returning the
length of the matched text.  `\d+` is greedy, and backtracking cannot
shorten it (a shorter run would put a digit where `;` must be), so the
match is the maximal digit run followed by `;`. -/
def durMatchLen (l : Str) : Option Nat :=
  match l with
  | ':' :: ' ' :: rest =>
      let t := rest.take 10
      if t.length == 10 && t.all pyIsDigit then
        match rest.drop 10 with
        | ':' :: rest2 =>
            let d := rest2.takeWhile pyIsDigit
            if !d.isEmpty && ((rest2.drop d.length).head? == some ';') then
              some (14 + d.length)
            else none
        | _ => none
      else none
  | _ => none

/-- Model of `re.search(r': \d{10}:\d+;', line)` followed by `.end()`:
end index of the leftmost match. -/
def searchDurEnd : Str → Option Nat
  | [] => none
  | c :: t =>
      match durMatchLen (c :: t) with
      | some len => some len
      | none => (searchDurEnd t).map (fun n => n + 1)

/-- Command-text location of the zsh parser (freq.py lines 135-144):
prefer the literal `:0;`, else fall back to the full regex, else skip. -/
def zshLocateCmd (line : Str) : Option Str :=
  match findSub zeroSep line with
  | some p => some (pyStrip (line.drop (p + 3)))
  | none => (searchDurEnd line).map (fun e => pyStrip (line.drop e))

/-- Embedding of one iteration of the `parse_zsh_history` loop (freq.py
lines 114-158): `none` when the line is skipped. -/
def parse_zsh_line (fullCommand : Bool) (df : DateFilter) (cf : Option Str)
    (rawLine : Str) : Option HistRec :=
  let line := pyStrip rawLine
  if line.isEmpty then none
  else
    match searchTs line with
    | none => none
    | some tdigits =>
        let timestamp : Int := (digitsToNat tdigits : Int)
        if dateRejects df timestamp then none
        else if pyContains [';'] line then
          match zshLocateCmd line with
          | none => none
          | some fullCmd =>
              if fullCmd.isEmpty then none
              else
                let command := extract_command fullCmd fullCommand
                if command.isEmpty then none
                else
                  match cf with
                  | some filt =>
                      if cmdMatches filt command then some (command, timestamp) else none
                  | none => some (command, timestamp)
        else none

/-- Embedding of `parse_zsh_history` (freq.py lines 109-164) on the list
of lines of the history file. -/
def parse_zsh_history (fullCommand : Bool) (df : DateFilter) (cf : Option Str)
    (lines : List Str) : List HistRec :=
  lines.filterMap (parse_zsh_line fullCommand df cf)

/-- Test of freq.py line 177:
`line.startswith('#') and len(line) > 1 and line[1:].isdigit()`. -/
def markerTest (line : Str) : Bool :=
  (line.head? == some '#') && decide (1 < line.length) && (line.drop 1).all pyIsDigit

/-- Embedding of one iteration of the `parse_bash_history` loop (freq.py
lines 173-203).  The state is the pending `current_timestamp` paired with
the records accumulated so far; `clock` models
`int(datetime.datetime.now().timestamp())`. -/
def parse_bash_step (fullCommand : Bool) (df : DateFilter) (cf : Option Str)
    (clock : Int) (st : Option Int × List HistRec) (rawLine : Str) :
    Option Int × List HistRec :=
  let line := pyStrip rawLine
  if markerTest line then (some ((digitsToNat (line.drop 1) : Int)), st.2)
  else if line.isEmpty then st
  else
    let timestamp : Int :=
      match st.1 with
      | some v => if v == 0 then clock else v
      | none => clock
    if dateRejects df timestamp then (none, st.2)
    else
      let command := extract_command line fullCommand
      if command.isEmpty then st
      else
        match cf with
        | some filt =>
            if cmdMatches filt command then (none, st.2 ++ [(command, timestamp)])
            else (none, st.2)
        | none => (none, st.2 ++ [(command, timestamp)])

/-- Embedding of `parse_bash_history` (freq.py lines 166-209). -/
def parse_bash_history (fullCommand : Bool) (df : DateFilter) (cf : Option Str)
    (clock : Int) (lines : List Str) : List HistRec :=
  (lines.foldl (parse_bash_step fullCommand df cf clock) (none, [])).2

/-- Embedding of the post-hoc date filter of `main` (freq.py lines
676-684), applied when no early filter ran. -/
def posthocDateFilter (df : DateFilter) (h : List HistRec) : List HistRec :=
  match df with
  | none => h
  | some (s, e) => h.filter (fun r => !dateRejects (some (s, e)) r.2)

/-- Embedding of the per-command selection of `run_analysis` (freq.py
lines 702-706). -/
def posthocCommandFilter (cf : Option Str) (h : List HistRec) : List HistRec :=
  match cf with
  | none => h
  | some filt => h.filter (fun r => cmdMatches filt r.1)

/-- Embedding of `filter_commands(history, exclude_list)` (freq.py lines
303-314). -/
def filter_commands (history : List HistRec) (excludeList : List Str) :
    List HistRec :=
  if excludeList.isEmpty then history
  else
    history.filter (fun r =>
      !(excludeList.contains (if r.1.isEmpty then r.1 else (pySplit r.1).headD [])))

/-- Leading whitespace-delimited token of a command (glossary of the
spec); for a token-free string the string itself. -/
def leadingToken (c : Str) : Str :=
  (pySplit c).headD c

/-- Model of `correlations[other_cmd] += 1` on a `defaultdict(int)`:
bump the key, preserving insertion order. -/
def corrBump (tbl : List (Str × Nat)) (k : Str) : List (Str × Nat) :=
  match tbl with
  | [] => [(k, 1)]
  | (k2, v) :: rest =>
      if k2 == k then (k2, v + 1) :: rest else (k2, v) :: corrBump rest k

/-- Read a tally from the table (0 when absent, as in `defaultdict(int)`). -/
def corrLookup : List (Str × Nat) → Str → Nat
  | [], _ => 0
  | (k, v) :: rest, c => if k == c then v else corrLookup rest c

/-- Embedding of `sorted(history, key=lambda x: x[1])` (freq.py line 319):
Python `sorted` is stable, as is `List.insertionSort` for this
reflexive comparator. -/
def sortByTime (h : List HistRec) : List HistRec :=
  List.insertionSort (fun a b => a.2 ≤ b.2) h

/-- Body of the inner `for j in range(max(0, i-10), min(len, i+11))` loop
of `get_command_correlations` (freq.py lines 323-327). -/
def corrInnerStep (s : List HistRec) (target : Str) (w : Int) (i : Nat)
    (t : Int) (tbl2 : List (Str × Nat)) (j : Nat) : List (Str × Nat) :=
  if i == j then tbl2
  else
    match s[j]? with
    | some (oc, ot) =>
        if decide (|ot - t| ≤ w) && !(oc == target) then corrBump tbl2 oc else tbl2
    | none => tbl2

/-- Body of the outer `for i, (cmd, timestamp) in enumerate(...)` loop of
`get_command_correlations` (freq.py lines 321-327); `enumerate` is
modelled by indexing over `List.range`. -/
def corrOuterStep (s : List HistRec) (target : Str) (w : Int)
    (tbl : List (Str × Nat)) (i : Nat) : List (Str × Nat) :=
  match s[i]? with
  | some (cmd, t) =>
      if cmd == target then
        (List.range' (i - 10) (min s.length (i + 11) - (i - 10))).foldl
          (corrInnerStep s target w i t) tbl
      else tbl
  | none => tbl

/-- Embedding of `get_command_correlations(history, target, window)`
(freq.py lines 316-329). -/
def get_command_correlations (history : List HistRec) (target : Str)
    (windowSeconds : Int) : List (Str × Nat) :=
  let s := sortByTime history
  (List.range s.length).foldl (corrOuterStep s target windowSeconds) []

/-- Embedding of the correlation report of `show_command_analysis`
(freq.py lines 385-388): default 300-second window, stable sort by tally
descending (`sorted(..., reverse=True)`), top 5. -/
def topCorrelations (history : List HistRec) (target : Str) :
    List (Str × Nat) :=
  (List.insertionSort (fun a b : Str × Nat => b.2 ≤ a.2)
    (get_command_correlations history target 300)).take 5

/-- All index pairs `(i, j)` with `i, j < n`. -/
def allPairs (n : Nat) : List (Nat × Nat) :=
  (List.range n).flatMap (fun i => (List.range n).map (fun j => (i, j)))

/-- Stated from the claim: over the chronologically sorted sequence `s`,
pair `(i, j)` contributes a tally for command `c` when position `i` holds
the target, `j` is within sequence-index distance 10 of `i` (excluding
`i` itself), the timestamps differ by at most the window, and position
`j` holds `c`, a command different from the target. -/
def corrPairHit (s : List HistRec) (target : Str) (w : Int) (c : Str)
    (p : Nat × Nat) : Bool :=
  !(p.1 == p.2) && decide (p.1 ≤ p.2 + 10) && decide (p.2 ≤ p.1 + 10) &&
    (match s[p.1]?, s[p.2]? with
     | some (c1, t1), some (c2, t2) =>
         c1 == target && c2 == c && !(c2 == target) && decide (|t2 - t1| ≤ w)
     | _, _ => false)

/-- Contribution test of the inner correlation loop for index `j`
(tally key `c`); used to relate the loop to `corrSpecCount`. -/
def corrJHit (s : List HistRec) (target : Str) (w : Int) (i : Nat) (t : Int)
    (c : Str) (j : Nat) : Bool :=
  !(i == j) &&
    (match s[j]? with
     | some (oc, ot) => decide (|ot - t| ≤ w) && !(oc == target) && (oc == c)
     | none => false)

/-- Number of tallies for key `c` contributed by target occurrence `i`. -/
def corrICount (s : List HistRec) (target : Str) (w : Int) (c : Str)
    (i : Nat) : Nat :=
  match s[i]? with
  | some (cmd, t) =>
      if cmd == target then
        (List.range' (i - 10) (min s.length (i + 11) - (i - 10))).countP
          (corrJHit s target w i t c)
      else 0
  | none => 0

/-- Stated from the claim: the number of tallying pairs for command `c`. -/
def corrSpecCount (s : List HistRec) (target : Str) (w : Int) (c : Str) : Nat :=
  (allPairs s.length).countP (corrPairHit s target w c)

/-- Model of `str.strip("'\"")`: drop quote characters from both ends. -/
def stripQuotes (l : Str) : Str :=
  ((l.dropWhile (fun c => c == squote || c == dquote)).reverse.dropWhile
    (fun c => c == squote || c == dquote)).reverse

/-- Model of `s.split('=', 1)` for a string containing `=`. -/
def splitFirstEq : Str → Str × Str
  | [] => ([], [])
  | c :: cs =>
      if c = '=' then ([], cs)
      else
        let nb := splitFirstEq cs
        (c :: nb.1, nb.2)

/-- The keyword prefix `alias ` tested by `line.startswith('alias ')`. -/
def aliasKw : Str := ['a', 'l', 'i', 'a', 's', ' ']

/-- Embedding of one iteration of the `load_aliases` line loop (freq.py
lines 260-271), returning the `name → base command` entry it records. -/
def parse_alias_line (rawLine : Str) : Option (Str × Str) :=
  let line := pyStrip rawLine
  if aliasKw.isPrefixOf line && pyContains ['='] line then
    let aliasDef := line.drop 6
    if pyContains ['='] aliasDef then
      let nb := splitFirstEq aliasDef
      let aliasCmd := stripQuotes (pyStrip nb.2)
      if !aliasCmd.isEmpty then some (pyStrip nb.1, (pySplit aliasCmd).headD [])
      else none
    else none
  else none

/-- Insertion into the alias `dict`; the most recent entry wins. -/
def dictInsert (tbl : List (Str × Str)) (k v : Str) : List (Str × Str) :=
  (k, v) :: tbl

/-- Lookup in the alias `dict` (`aliases.get(command)`); finds the most
recent insertion. -/
def dictGet (tbl : List (Str × Str)) (k : Str) : Option Str :=
  tbl.lookup k

/-- Embedding of the alias-table construction of `load_aliases` (freq.py
lines 246-276) over the lines of the configuration files, in reading
order. -/
def load_aliases (lines : List Str) : List (Str × Str) :=
  lines.foldl
    (fun tbl l =>
      match parse_alias_line l with
      | some nv => dictInsert tbl nv.1 nv.2
      | none => tbl)
    []

/-- Embedding of `resolve_command(command, aliases)` (freq.py lines
300-301): pure lookup with identity fallback. -/
def resolve_command (command : Str) (aliases : List (Str × Str)) : Str :=
  match dictGet aliases command with
  | some v => v
  | none => command

/-- Join words with single spaces (`' '.join`). -/
def joinSpaces : List Str → Str
  | [] => []
  | [w] => w
  | w :: v :: ws => w ++ ' ' :: joinSpaces (v :: ws)

/-- Embedding of the full-command-mode alias substitution of `main`
(freq.py lines 649-655): resolve the leading token, rejoin the rest. -/
def resolve_full_record (aliases : List (Str × Str)) (command : Str) : Str :=
  match pySplit command with
  | [] => command
  | w :: ws =>
      resolve_command w aliases ++ (if ws.isEmpty then [] else ' ' :: joinSpaces ws)

/-- Stated from the claim (C7): recovery result for a corrupted entry —
`export` when the raw text begins with `export`, else the first of
`export`, `echo`, `set`, `alias` contained in it, else `malformed`. -/
def recoveredToken (raw : Str) : Str :=
  if exportStr.isPrefixOf raw then exportStr
  else if pyContains exportStr raw then exportStr
  else if pyContains echoStr raw then echoStr
  else if pyContains setStr raw then setStr
  else if pyContains aliasStr raw then aliasStr
  else malformedStr

lemma dropWhile_eq_self_of (p : Char → Bool) (l : Str)
    (h : ∀ c ∈ l.head?, p c = false) : l.dropWhile p = l := by
  cases l with
  | nil => rfl
  | cons c cs => simp [List.dropWhile_cons, h c rfl]

lemma head?_dropWhile (p : Char → Bool) (l : Str) :
    ∀ c ∈ (l.dropWhile p).head?, p c = false := by
  induction l with
  | nil => intro c hc; simp at hc
  | cons a as ih =>
      rw [List.dropWhile_cons]
      split
      · exact ih
      · next hpa =>
          intro c hc
          simp only [List.head?_cons, Option.mem_def, Option.some.injEq] at hc
          subst hc
          simpa using hpa

lemma pyStrip_eq_self {l : Str} (h1 : ∀ c ∈ l.head?, pyIsSpace c = false)
    (h2 : ∀ c ∈ l.getLast?, pyIsSpace c = false) : pyStrip l = l := by
  unfold pyStrip
  rw [dropWhile_eq_self_of _ _ h1]
  rw [dropWhile_eq_self_of _ _ (by rw [List.head?_reverse]; exact h2)]
  exact List.reverse_reverse l

lemma head?_pyStrip (l : Str) : ∀ c ∈ (pyStrip l).head?, pyIsSpace c = false := by
  intro c hc
  have hsuf : (l.dropWhile pyIsSpace).reverse.dropWhile pyIsSpace <:+
      (l.dropWhile pyIsSpace).reverse := List.dropWhile_suffix _
  have hpre : pyStrip l <+: l.dropWhile pyIsSpace := by
    rw [← List.reverse_suffix]
    simpa [pyStrip] using hsuf
  obtain ⟨t, ht⟩ := hpre
  have hmem : (l.dropWhile pyIsSpace).head? = some c := by
    rw [← ht, List.head?_append]
    rw [Option.mem_def] at hc
    simp [hc]
  exact head?_dropWhile _ _ c hmem

lemma digit_not_space {c : Char} (h : pyIsDigit c = true) : pyIsSpace c = false := by
  cases hs : pyIsSpace c
  · rfl
  · exfalso
    have hor : ((((c = ' ' ∨ c = '\t') ∨ c = '\n') ∨ c = '\r') ∨ c = '\x0b') ∨ c = '\x0c' := by
      simpa [pyIsSpace] using hs
    rcases hor with ((((rfl | rfl) | rfl) | rfl) | rfl) | rfl <;> exact absurd h (by decide)

lemma pySplitGo_ne_nil (l : Str) : ∀ acc : Str, acc ≠ [] → pySplitGo l acc ≠ [] := by
  induction l with
  | nil =>
      intro acc h
      have : acc.isEmpty = false := by
        cases acc
        · exact absurd rfl h
        · rfl
      simp [pySplitGo, this]
  | cons c cs ih =>
      intro acc h
      have hacc : acc.isEmpty = false := by
        cases acc
        · exact absurd rfl h
        · rfl
      by_cases hs : pyIsSpace c = true
      · simp [pySplitGo, hs, hacc]
      · have hs2 : pyIsSpace c = false := by simpa using hs
        simpa [pySplitGo, hs2] using ih (c :: acc) (by simp)

lemma pySplitGo_words_ne_nil (l : Str) :
    ∀ acc w, w ∈ pySplitGo l acc → w ≠ [] := by
  induction l with
  | nil =>
      intro acc w hw
      simp only [pySplitGo] at hw
      split at hw
      · simp at hw
      · next hacc =>
          simp only [List.mem_singleton] at hw
          subst hw
          have : acc ≠ [] := by
            intro h0
            rw [h0] at hacc
            exact hacc rfl
          simpa using this
  | cons c cs ih =>
      intro acc w hw
      simp only [pySplitGo] at hw
      split at hw
      · split at hw
        · exact ih [] w hw
        · next hacc =>
            rcases List.mem_cons.mp hw with rfl | hmem
            · have : acc ≠ [] := by
                intro h0
                rw [h0] at hacc
                exact hacc rfl
              simpa using this
            · exact ih [] w hmem
      · exact ih (c :: acc) w hw

lemma pySplit_cons_head (c : Char) (cs : Str) (hc : pyIsSpace c = false) :
    ∃ w ws, pySplit (c :: cs) = w :: ws ∧ w ≠ [] := by
  have hstep : pySplit (c :: cs) = pySplitGo cs [c] := by
    simp [pySplit, pySplitGo, hc]
  have hne : pySplitGo cs [c] ≠ [] := pySplitGo_ne_nil cs [c] (by simp)
  cases hgo : pySplitGo cs [c] with
  | nil => exact absurd hgo hne
  | cons w ws =>
      refine ⟨w, ws, by rw [hstep, hgo], ?_⟩
      exact pySplitGo_words_ne_nil cs [c] w (by rw [hgo]; exact List.mem_cons_self w ws)

lemma extract_command_ne_nil {l : Str} (mode : Bool) (hne : l ≠ [])
    (hh : ∀ c ∈ l.head?, pyIsSpace c = false) : extract_command l mode ≠ [] := by
  obtain ⟨c, cs, rfl⟩ := List.exists_cons_of_ne_nil hne
  have hc : pyIsSpace c = false := hh c rfl
  obtain ⟨w, ws, hsp, hw⟩ := pySplit_cons_head c cs hc
  cases mode with
  | true => simp [extract_command]
  | false =>
      simp only [extract_command, List.isEmpty_cons, Bool.false_eq_true, if_false, hsp]
      split
      · split
        · decide
        · split
          · decide
          · split
            · decide
            · split
              · decide
              · split
                · decide
                · decide
      · exact hw

lemma pyContains_single_of_mem {c : Char} {hay : Str} (h : c ∈ hay) :
    pyContains [c] hay = true := by
  induction hay with
  | nil => simp at h
  | cons x t ih =>
      by_cases hcx : ([c] : Str).isPrefixOf (x :: t) = true
      · simp [pyContains, findSub, hcx]
      · have hcx2 : ([c] : Str).isPrefixOf (x :: t) = false := by
          cases hpf : ([c] : Str).isPrefixOf (x :: t)
          · rfl
          · exact absurd hpf hcx
        rcases List.mem_cons.mp h with rfl | hmem
        · exact absurd (by simp [List.isPrefixOf]) hcx
        · have hrec := ih hmem
          simp only [pyContains, findSub, hcx2, Bool.false_eq_true, if_false] at hrec ⊢
          simpa using hrec

lemma findSub_cons_neg {needle : Str} {c : Char} {t : Str}
    (h : needle.isPrefixOf (c :: t) = false) :
    findSub needle (c :: t) = (findSub needle t).map (fun n => n + 1) := by
  simp [findSub, h]

lemma findSub_digits {needle : Str} {hc : Char} (hne : needle.head? = some hc)
    (hnd : pyIsDigit hc = false) (dl rest : Str)
    (hdl : ∀ c ∈ dl, pyIsDigit c = true) :
    findSub needle (dl ++ rest) = (findSub needle rest).map (fun n => n + dl.length) := by
  induction dl with
  | nil =>
      simp only [List.nil_append, List.length_nil]
      cases findSub needle rest <;> simp
  | cons d dl2 ih =>
      obtain ⟨nt, rfl⟩ : ∃ nt, needle = hc :: nt := by
        cases needle with
        | nil => simp at hne
        | cons a b =>
            simp only [List.head?_cons, Option.some.injEq] at hne
            exact ⟨b, by rw [hne]⟩
      have hd : pyIsDigit d = true := hdl d (by simp)
      have hcd : (hc == d) = false := by
        rw [beq_eq_false_iff_ne]
        rintro rfl
        rw [hd] at hnd
        exact absurd hnd (by simp)
      have hpf : ((hc :: nt).isPrefixOf (d :: (dl2 ++ rest))) = false := by
        simp [List.isPrefixOf, hcd]
      rw [List.cons_append, findSub_cons_neg hpf,
        ih (fun c hcmem => hdl c (by simp [hcmem]))]
      cases hfr : findSub (hc :: nt) rest <;> simp [List.length_cons]
      omega

lemma takeWhile_eq_self_of_all {p : Char → Bool} {l : Str}
    (h : ∀ c ∈ l, p c = true) : l.takeWhile p = l := by
  induction l with
  | nil => rfl
  | cons c cs ih =>
      rw [List.takeWhile_cons, if_pos (h c (by simp))]
      rw [ih (fun x hx => h x (by simp [hx]))]

lemma dateRejects_start_zero (e : Option Int) (t : Int) :
    dateRejects (some (some 0, e)) t = dateRejects (some (none, e)) t := by
  simp [dateRejects]

lemma dateRejects_end_zero (s : Option Int) (t : Int) :
    dateRejects (some (s, some 0)) t = dateRejects (some (s, none)) t := by
  simp [dateRejects]

lemma parse_zsh_line_df_congr (fm : Bool) (cf : Option Str) (raw : Str)
    (df1 df2 : DateFilter) (h : ∀ t, dateRejects df1 t = dateRejects df2 t) :
    parse_zsh_line fm df1 cf raw = parse_zsh_line fm df2 cf raw := by
  simp only [parse_zsh_line, h]

lemma parse_zsh_history_df_congr (fm : Bool) (cf : Option Str) (lines : List Str)
    (df1 df2 : DateFilter) (h : ∀ t, dateRejects df1 t = dateRejects df2 t) :
    parse_zsh_history fm df1 cf lines = parse_zsh_history fm df2 cf lines := by
  unfold parse_zsh_history
  exact congrArg (fun f => lines.filterMap f)
    (funext fun raw => parse_zsh_line_df_congr fm cf raw df1 df2 h)

lemma parse_bash_step_df_congr (fm : Bool) (cf : Option Str) (clk : Int)
    (df1 df2 : DateFilter) (h : ∀ t, dateRejects df1 t = dateRejects df2 t) :
    parse_bash_step fm df1 cf clk = parse_bash_step fm df2 cf clk := by
  funext st raw
  simp only [parse_bash_step, h]

lemma parse_bash_history_df_congr (fm : Bool) (cf : Option Str) (clk : Int)
    (lines : List Str) (df1 df2 : DateFilter)
    (h : ∀ t, dateRejects df1 t = dateRejects df2 t) :
    parse_bash_history fm df1 cf clk lines = parse_bash_history fm df2 cf clk lines := by
  unfold parse_bash_history
  rw [parse_bash_step_df_congr fm cf clk df1 df2 h]

/-- Claim C10: at every date-filtering site (the early zsh in-parser
filter, the early bash in-parser filter, and the post-hoc filter of
`main`), a bound whose integer value is 0 is treated as absent: a filter
with `start = 0` behaves exactly like one with no start bound, and a
filter with `end = 0` exactly like one with no end bound. -/
theorem freq_c10_zero_bound_absent (fm : Bool) (cf : Option Str) (clk : Int)
    (s e : Option Int) (lines : List Str) (h : List HistRec) :
    parse_zsh_history fm (some (some 0, e)) cf lines
        = parse_zsh_history fm (some (none, e)) cf lines
  ∧ parse_zsh_history fm (some (s, some 0)) cf lines
        = parse_zsh_history fm (some (s, none)) cf lines
  ∧ parse_bash_history fm (some (some 0, e)) cf clk lines
        = parse_bash_history fm (some (none, e)) cf clk lines
  ∧ parse_bash_history fm (some (s, some 0)) cf clk lines
        = parse_bash_history fm (some (s, none)) cf clk lines
  ∧ posthocDateFilter (some (some 0, e)) h = posthocDateFilter (some (none, e)) h
  ∧ posthocDateFilter (some (s, some 0)) h = posthocDateFilter (some (s, none)) h := by
  refine ⟨?_, ?_, ?_, ?_, ?_, ?_⟩
  · exact parse_zsh_history_df_congr fm cf lines _ _ (dateRejects_start_zero e)
  · exact parse_zsh_history_df_congr fm cf lines _ _ (dateRejects_end_zero s)
  · exact parse_bash_history_df_congr fm cf clk lines _ _ (dateRejects_start_zero e)
  · exact parse_bash_history_df_congr fm cf clk lines _ _ (dateRejects_end_zero s)
  · simp only [posthocDateFilter]
    exact List.filter_congr (fun r _ => by rw [dateRejects_start_zero e r.2])
  · simp only [posthocDateFilter]
    exact List.filter_congr (fun r _ => by rw [dateRejects_end_zero s r.2])

/-- Claim C5, counterexample: with the date filter `(start, end) = (1, 5)`
a record with timestamp exactly `end = 5` is kept, not dropped — the
window is inclusive at the end bound, contradicting the claimed
inclusive-exclusive reading. -/
theorem freq_c5_counterexample :
    posthocDateFilter (some (some 1, some 5)) [(['g'], (5 : Int))] = [(['g'], (5 : Int))]
  ∧ (['g'], (5 : Int)) ∈ posthocDateFilter (some (some 1, some 5)) [(['g'], (5 : Int))] := by
  constructor
  · decide
  · decide

/-- Claim C5, amended: with both bounds set to nonzero values the date
filter keeps exactly the records with `start ≤ timestamp ≤ end`
(inclusive-inclusive); a record whose timestamp equals `end` is kept. -/
theorem freq_c5_amended (s e : Int) (h : List HistRec) (hs : 0 < s) (he : 0 < e) :
    posthocDateFilter (some (some s, some e)) h
      = h.filter (fun r => decide (s ≤ r.2) && decide (r.2 ≤ e)) := by
  simp only [posthocDateFilter]
  refine List.filter_congr ?_
  intro r _
  rw [Bool.eq_iff_iff]
  simp [dateRejects]
  omega

/-- Claim C5, witness for the amended statement at a concrete filter and
record list. -/
theorem freq_c5_witness :
    (0 : Int) < 1 ∧ (0 : Int) < 9 ∧
      posthocDateFilter (some (some 1, some 9)) [(['a'], (3 : Int)), (['b'], (12 : Int))]
        = List.filter (fun r => decide ((1 : Int) ≤ r.2) && decide (r.2 ≤ (9 : Int)))
            [(['a'], (3 : Int)), (['b'], (12 : Int))] :=
  ⟨by decide, by decide,
    freq_c5_amended 1 9 [(['a'], (3 : Int)), (['b'], (12 : Int))] (by decide) (by decide)⟩

/-- Claim C1, counterexample: on the valid zsh line
`: 1234567890:5;echo :0;x` (duration 5, command `echo :0;x` which
contains `:0;`), full-command parsing yields the record `("x", T)` —
the `:0;` fast path takes the suffix after the first `:0;` occurrence,
which lies inside the command text, so it is not a pure optimization. -/
theorem freq_c1_counterexample :
    parse_zsh_line true none none
        [':', ' ', '1', '2', '3', '4', '5', '6', '7', '8', '9', '0', ':', '5', ';',
          'e', 'c', 'h', 'o', ' ', ':', '0', ';', 'x']
      = some (['x'], (1234567890 : Int))
  ∧ (['x'] : Str) ≠ ['e', 'c', 'h', 'o', ' ', ':', '0', ';', 'x'] := by
  constructor
  · decide
  · decide

/-- Claim C2, counterexample: a bash marker line `#0` (timestamp 0) is
not used as the timestamp of the following command line; the wall-clock
fallback (here 999) is substituted instead, because Python's integer
truthiness treats the pending value 0 as absent. -/
theorem freq_c2_counterexample :
    parse_bash_history false none none 999 [['#', '0'], ['l', 's']]
      = [(['l', 's'], (999 : Int))]
  ∧ (999 : Int) ≠ 0 := by
  constructor
  · decide
  · decide

/-- Claim C7, counterexample: the raw text `00;35'` on its own contains
none of `export`, `echo`, `set`, `alias`, so reduced-token extraction
returns `malformed`, not `alias` as the spec's test asserts. -/
theorem freq_c7_counterexample :
    extract_command tok0035 false = malformedStr ∧ malformedStr ≠ aliasStr := by
  constructor
  · decide
  · decide

/-- Claim C7, amended: in reduced-token mode, whenever the first
whitespace-delimited token ends with a single quote and is purely
numeric or one of `35'`/`00;35'`, extraction returns the recovery
result: `export` if the raw text begins with `export`, else the first
of `export`, `echo`, `set`, `alias` contained in the raw text, else
`malformed`.  (The spec's example input must contain `alias`, e.g.
`00;35' alias x`; the bare token `00;35'` yields `malformed`.) -/
theorem freq_c7_amended (raw w : Str) (ws : List Str)
    (hsp : pySplit raw = w :: ws)
    (hq : (w.getLast? == some squote) = true)
    (hform : (pyIsDigitStr w || w == tok35 || w == tok0035) = true) :
    extract_command raw false = recoveredToken raw := by
  have hne : raw.isEmpty = false := by
    cases raw with
    | nil => simp [pySplit, pySplitGo] at hsp
    | cons a b => rfl
  simp only [extract_command, recoveredToken, hne, Bool.false_eq_true, if_false, hsp,
    hq, hform, Bool.and_self, if_true]

/-- Claim C7, witness for the amended statement: the raw text
`00;35' alias x` satisfies the corrupted-token test and recovers
`alias`. -/
theorem freq_c7_witness :
    extract_command ['0', '0', ';', '3', '5', squote, ' ', 'a', 'l', 'i', 'a', 's', ' ', 'x'] false
      = recoveredToken ['0', '0', ';', '3', '5', squote, ' ', 'a', 'l', 'i', 'a', 's', ' ', 'x']
  ∧ recoveredToken ['0', '0', ';', '3', '5', squote, ' ', 'a', 'l', 'i', 'a', 's', ' ', 'x']
      = aliasStr :=
  ⟨freq_c7_amended ['0', '0', ';', '3', '5', squote, ' ', 'a', 'l', 'i', 'a', 's', ' ', 'x']
      ['0', '0', ';', '3', '5', squote] [['a', 'l', 'i', 'a', 's'], ['x']]
      (by decide) (by decide) (by decide),
    by decide⟩

/-- Claim C8: the exclusion filter removes exactly the records whose
leading whitespace token is in the exclusion set (the leading token is
used in both reduced and full-command modes, since it is recomputed
from the stored command), and the survivors form a sublist of the
input: same order, same values.  The hypothesis excludes commands made
only of whitespace, on which the original would raise `IndexError`. -/
theorem freq_c8_exclusion (h : List HistRec) (ex : List Str)
    (hws : ∀ r ∈ h, pySplit r.1 = [] → r.1 = []) :
    filter_commands h ex = h.filter (fun r => !(ex.contains (leadingToken r.1)))
  ∧ (filter_commands h ex).Sublist h := by
  have heq : filter_commands h ex = h.filter (fun r => !(ex.contains (leadingToken r.1))) := by
    unfold filter_commands
    by_cases hex : ex.isEmpty = true
    · have hex2 : ex = [] := List.isEmpty_iff.mp hex
      subst hex2
      simp
    · rw [if_neg hex]
      refine List.filter_congr ?_
      intro r hr
      by_cases hemp : r.1.isEmpty = true
      · have h0 : r.1 = [] := List.isEmpty_iff.mp hemp
        simp [hemp, leadingToken, h0, pySplit, pySplitGo]
      · have hne2 : r.1 ≠ [] := fun h0 => hemp (by rw [h0]; rfl)
        have hsp2 : pySplit r.1 ≠ [] := fun h0 => hne2 (hws r hr h0)
        obtain ⟨w, ws, hwws⟩ : ∃ w ws, pySplit r.1 = w :: ws := by
          cases hx : pySplit r.1 with
          | nil => exact absurd hx hsp2
          | cons a b => exact ⟨a, b, rfl⟩
        have hemp2 : r.1.isEmpty = false := by
          cases hb : r.1.isEmpty
          · rfl
          · exact absurd hb hemp
        simp [hemp2, leadingToken, hwws]
  exact ⟨heq, heq ▸ List.filter_sublist h⟩

/-- Claim C8, witness at a concrete record list and exclusion set. -/
theorem freq_c8_witness :
    filter_commands [(['l', 's', ' ', '-', 'a'], (1 : Int)), (['g'], (2 : Int))] [['l', 's']]
        = List.filter (fun r => !([['l', 's']].contains (leadingToken r.1)))
            [(['l', 's', ' ', '-', 'a'], (1 : Int)), (['g'], (2 : Int))]
  ∧ (filter_commands [(['l', 's', ' ', '-', 'a'], (1 : Int)), (['g'], (2 : Int))]
        [['l', 's']]).Sublist
      [(['l', 's', ' ', '-', 'a'], (1 : Int)), (['g'], (2 : Int))] :=
  freq_c8_exclusion [(['l', 's', ' ', '-', 'a'], (1 : Int)), (['g'], (2 : Int))] [['l', 's']]
    (by decide)

/-- Claim C9: alias resolution is a pure lookup with identity fallback:
from the configuration line `alias ll='ls -la'` the token `ll` resolves
to `ls`; a name absent from the table resolves to itself; and in
full-command mode only the leading token is substituted, the remaining
argument tokens being preserved and rejoined with single spaces. -/
theorem freq_c9_alias (tbl : List (Str × Str)) (command w : Str) (ws : List Str) :
    resolve_command ['l', 'l']
        (load_aliases
          [['a', 'l', 'i', 'a', 's', ' ', 'l', 'l', '=', squote, 'l', 's', ' ', '-', 'l', 'a', squote]])
      = ['l', 's']
  ∧ (dictGet tbl command = none → resolve_command command tbl = command)
  ∧ (pySplit command = w :: ws →
      resolve_full_record tbl command = joinSpaces (resolve_command w tbl :: ws)) := by
  refine ⟨by decide, ?_, ?_⟩
  · intro h0
    simp [resolve_command, h0]
  · intro hsp
    simp only [resolve_full_record, hsp]
    cases ws with
    | nil => simp [joinSpaces]
    | cons v vs => simp [joinSpaces]

/-- Claim C9, witness: an unmapped token resolves to itself and a
full-command record has only its leading token substituted. -/
theorem freq_c9_witness :
    resolve_command ['z']
        (load_aliases
          [['a', 'l', 'i', 'a', 's', ' ', 'l', 'l', '=', squote, 'l', 's', ' ', '-', 'l', 'a', squote]])
      = ['z']
  ∧ resolve_full_record
        (load_aliases
          [['a', 'l', 'i', 'a', 's', ' ', 'l', 'l', '=', squote, 'l', 's', ' ', '-', 'l', 'a', squote]])
        ['l', 'l', ' ', '-', 'a']
      = joinSpaces
          (resolve_command ['l', 'l']
              (load_aliases
                [['a', 'l', 'i', 'a', 's', ' ', 'l', 'l', '=', squote, 'l', 's', ' ', '-', 'l', 'a', squote]])
            :: [['-', 'a']]) :=
  ⟨(freq_c9_alias
      (load_aliases
        [['a', 'l', 'i', 'a', 's', ' ', 'l', 'l', '=', squote, 'l', 's', ' ', '-', 'l', 'a', squote]])
      ['z'] [] []).2.1 (by decide),
   (freq_c9_alias
      (load_aliases
        [['a', 'l', 'i', 'a', 's', ' ', 'l', 'l', '=', squote, 'l', 's', ' ', '-', 'l', 'a', squote]])
      ['l', 'l', ' ', '-', 'a'] ['l', 'l'] [['-', 'a']]).2.2 (by decide)⟩

lemma option_nonspace_forall {o : Option Char}
    (h : (o.all (fun c => !pyIsSpace c)) = true) : ∀ c ∈ o, pyIsSpace c = false := by
  intro c hcin
  rw [Option.mem_def] at hcin
  rw [hcin] at h
  simpa using h

/-- Claim C6: the bash parser's pending-timestamp state machine: a
marker line `#digits` moves the state to `Pending(T)` and emits no
record; a blank line leaves state and accumulated output unchanged; and
any other non-blank line (a command line) leaves the pending slot
cleared afterwards, whether or not the line survives date or command
filtering. -/
theorem freq_c6_state_machine (fm : Bool) (df : DateFilter) (cf : Option Str)
    (clk : Int) (st : Option Int × List HistRec) (raw : Str) :
    (markerTest (pyStrip raw) = true →
        parse_bash_step fm df cf clk st raw
          = (some ((digitsToNat ((pyStrip raw).drop 1) : Int)), st.2))
  ∧ (pyStrip raw = [] → parse_bash_step fm df cf clk st raw = st)
  ∧ (markerTest (pyStrip raw) = false → pyStrip raw ≠ [] →
      (parse_bash_step fm df cf clk st raw).1 = none) := by
  refine ⟨?_, ?_, ?_⟩
  · intro hm
    simp [parse_bash_step, hm]
  · intro hb
    have hm : markerTest ([] : Str) = false := by decide
    simp [parse_bash_step, hb, hm]
  · intro hm hb
    have hcmd : extract_command (pyStrip raw) fm ≠ [] :=
      extract_command_ne_nil fm hb (head?_pyStrip raw)
    have hcmd2 : (extract_command (pyStrip raw) fm).isEmpty = false := by
      cases hE : extract_command (pyStrip raw) fm with
      | nil => exact absurd hE hcmd
      | cons a b => rfl
    have hbe : (pyStrip raw).isEmpty = false := by
      cases hx : pyStrip raw with
      | nil => exact absurd hx hb
      | cons a b => rfl
    simp only [parse_bash_step, hm, Bool.false_eq_true, if_false, hbe, hcmd2]
    split
    · rfl
    · split
      · split
        · rfl
        · rfl
      · rfl

/-- Claim C6, witness: the three transitions at concrete inputs — a
marker line `#5`, a blank line, and a command line consuming a pending
timestamp. -/
theorem freq_c6_witness :
    parse_bash_step false none none 7 (none, []) ['#', '5'] = (some 5, [])
  ∧ parse_bash_step false none none 7 (some 3, [(['a'], (1 : Int))]) [' ']
      = (some 3, [(['a'], (1 : Int))])
  ∧ (parse_bash_step false none none 7 (some 3, []) ['l', 's']).1 = none :=
  ⟨((freq_c6_state_machine false none none 7 (none, []) ['#', '5']).1 (by decide)).trans
      (by decide),
   (freq_c6_state_machine false none none 7 (some 3, [(['a'], (1 : Int))]) [' ']).2.1
      (by decide),
   (freq_c6_state_machine false none none 7 (some 3, []) ['l', 's']).2.2 (by decide)
      (by decide)⟩

/-- Claim C2, amended: a marker line `#T` followed by a non-blank command
line `cmd` parses to the record `(cmd-or-leading-token, T)` for every
POSITIVE integer T; for T = 0 Python's integer truthiness takes the
wall-clock fallback instead (see the counterexample).  A command line
with no preceding marker yields a record carrying the wall-clock
timestamp, never a failure. -/
theorem freq_c2_amended (fm : Bool) (ds cmd : Str) (clock : Int)
    (hds : ds ≠ []) (hdd : ds.all pyIsDigit = true) (hpos : 0 < digitsToNat ds)
    (hc : cmd ≠ [])
    (hch : (cmd.head?.all (fun c => !pyIsSpace c)) = true)
    (hcl : (cmd.getLast?.all (fun c => !pyIsSpace c)) = true)
    (hmk : markerTest cmd = false) :
    parse_bash_history fm none none clock [('#' :: ds), cmd]
        = [(extract_command cmd fm, (digitsToNat ds : Int))]
  ∧ parse_bash_history fm none none clock [cmd]
        = [(extract_command cmd fm, clock)] := by
  obtain ⟨d, ds2, rfl⟩ := List.exists_cons_of_ne_nil hds
  have hchf : ∀ c ∈ cmd.head?, pyIsSpace c = false := option_nonspace_forall hch
  have hclf : ∀ c ∈ cmd.getLast?, pyIsSpace c = false := option_nonspace_forall hcl
  have hstrip_c : pyStrip cmd = cmd := pyStrip_eq_self hchf hclf
  have hstrip_m : pyStrip ('#' :: d :: ds2) = '#' :: d :: ds2 := by
    refine pyStrip_eq_self ?_ ?_
    · intro c hcin
      rw [Option.mem_def, List.head?_cons, Option.some.injEq] at hcin
      subst hcin
      decide
    · intro c hcin
      rw [List.getLast?_cons_cons, Option.mem_def,
        List.getLast?_eq_getLast (d :: ds2) (by simp)] at hcin
      have hmem : c ∈ d :: ds2 := by
        rw [Option.some.injEq] at hcin
        rw [← hcin]
        exact List.getLast_mem (by simp)
      exact digit_not_space (List.all_eq_true.mp hdd c hmem)
  have hm : markerTest ('#' :: d :: ds2) = true := by
    simp [markerTest, hdd]
  have hstep1 : parse_bash_step fm none none clock (none, []) ('#' :: d :: ds2)
      = (some ((digitsToNat (d :: ds2) : Nat) : Int), []) := by
    simp [parse_bash_step, hstrip_m, hm]
  have hbe : cmd.isEmpty = false := by
    cases hx : cmd with
    | nil => exact absurd hx hc
    | cons a b => rfl
  have hcmd2 : (extract_command cmd fm).isEmpty = false := by
    cases hE : extract_command cmd fm with
    | nil => exact absurd hE (extract_command_ne_nil fm hc hchf)
    | cons a b => rfl
  have hv : (((digitsToNat (d :: ds2) : Nat) : Int) == 0) = false := by
    rw [beq_eq_false_iff_ne]
    exact_mod_cast Nat.pos_iff_ne_zero.mp hpos
  constructor
  · show (List.foldl (parse_bash_step fm none none clock) (none, [])
        [('#' :: d :: ds2), cmd]).2 = _
    rw [List.foldl_cons, hstep1, List.foldl_cons]
    simp only [parse_bash_step, hstrip_c, hmk, Bool.false_eq_true, if_false, hbe,
      hcmd2, hv, List.foldl_nil]
    simp [dateRejects]
  · show (List.foldl (parse_bash_step fm none none clock) (none, []) [cmd]).2 = _
    rw [List.foldl_cons]
    simp only [parse_bash_step, hstrip_c, hmk, Bool.false_eq_true, if_false, hbe,
      hcmd2, List.foldl_nil]
    simp [dateRejects]

/-- Claim C2, witness for the amended statement: `#5` then `ls`, and a
bare `ls` with wall clock 7. -/
theorem freq_c2_witness :
    parse_bash_history false none none 7 [['#', '5'], ['l', 's']]
        = [(extract_command ['l', 's'] false, ((digitsToNat ['5'] : Nat) : Int))]
  ∧ parse_bash_history false none none 7 [['l', 's']]
        = [(extract_command ['l', 's'] false, (7 : Int))] :=
  freq_c2_amended false ['5'] ['l', 's'] 7 (by decide) (by decide) (by decide)
    (by decide) (by decide) (by decide) (by decide)

/-- Claim C1, amended: for every valid zsh history line
`: T:D;cmd` (10-digit timestamp T, digit duration D, non-empty command
text cmd without surrounding whitespace), parsing yields exactly
`(cmd-or-leading-token, T)` PROVIDED the duration is the literal `0` or
`cmd` does not contain the substring `:0;`.  When `D ≠ 0` and `cmd`
contains `:0;`, the fast path takes the suffix of `cmd` after its first
`:0;` instead (see the counterexample), so the fast path is an
optimization only within this proviso. -/
theorem freq_c1_amended (fm : Bool) (T D cmd : Str)
    (hT10 : T.length = 10) (hTd : T.all pyIsDigit = true)
    (hD : D ≠ []) (hDd : D.all pyIsDigit = true)
    (hc : cmd ≠ [])
    (hch : (cmd.head?.all (fun c => !pyIsSpace c)) = true)
    (hcl : (cmd.getLast?.all (fun c => !pyIsSpace c)) = true)
    (hsep : D = ['0'] ∨ pyContains zeroSep cmd = false) :
    parse_zsh_line fm none none (':' :: ' ' :: (T ++ ':' :: (D ++ ';' :: cmd)))
      = some (extract_command cmd fm, (digitsToNat T : Int)) := by
  have hchf := option_nonspace_forall hch
  have hclf := option_nonspace_forall hcl
  have hTd2 : ∀ c ∈ T, pyIsDigit c = true := List.all_eq_true.mp hTd
  have hDd2 : ∀ c ∈ D, pyIsDigit c = true := List.all_eq_true.mp hDd
  have hstripc : pyStrip cmd = cmd := pyStrip_eq_self hchf hclf
  have hPline : (':' :: ' ' :: (T ++ ':' :: (D ++ ';' :: cmd)))
      = (':' :: ' ' :: (T ++ ':' :: (D ++ [';']))) ++ cmd := by simp
  have hlinelast : ∀ c ∈ (':' :: ' ' :: (T ++ ':' :: (D ++ ';' :: cmd))).getLast?,
      pyIsSpace c = false := by
    intro c hcin
    apply hclf c
    rw [hPline, List.getLast?_append, List.getLast?_eq_getLast cmd hc] at hcin
    rw [List.getLast?_eq_getLast cmd hc]
    exact hcin
  have hstrip : pyStrip (':' :: ' ' :: (T ++ ':' :: (D ++ ';' :: cmd)))
      = (':' :: ' ' :: (T ++ ':' :: (D ++ ';' :: cmd))) := by
    refine pyStrip_eq_self ?_ hlinelast
    intro c hcin
    rw [Option.mem_def, List.head?_cons, Option.some.injEq] at hcin
    subst hcin
    decide
  have htake : (T ++ ':' :: (D ++ ';' :: cmd)).take 10 = T := by
    rw [show (10 : Nat) = T.length from hT10.symm]
    exact List.take_left T _
  have hdrop : (T ++ ':' :: (D ++ ';' :: cmd)).drop 10 = ':' :: (D ++ ';' :: cmd) := by
    rw [show (10 : Nat) = T.length from hT10.symm]
    exact List.drop_left T _
  have hts : tsMatchAt (':' :: ' ' :: (T ++ ':' :: (D ++ ';' :: cmd))) = some T := by
    simp only [tsMatchAt, htake, hdrop]
    simp [hT10, hTd]
  have hsearch : searchTs (':' :: ' ' :: (T ++ ':' :: (D ++ ';' :: cmd))) = some T := by
    simp only [searchTs, hts]
  have hcont : pyContains [';'] (':' :: ' ' :: (T ++ ':' :: (D ++ ';' :: cmd))) = true := by
    refine pyContains_single_of_mem ?_
    simp
  have hbe : cmd.isEmpty = false := by
    cases hx : cmd with
    | nil => exact absurd hx hc
    | cons a b => rfl
  have hee : (extract_command cmd fm).isEmpty = false := by
    cases hE : extract_command cmd fm with
    | nil => exact absurd hE (extract_command_ne_nil fm hc hchf)
    | cons a b => rfl
  have hloc : zshLocateCmd (':' :: ' ' :: (T ++ ':' :: (D ++ ';' :: cmd))) = some cmd := by
    by_cases hD0 : D = ['0']
    · subst hD0
      have hrest : findSub zeroSep (':' :: (['0'] ++ ';' :: cmd)) = some 0 := by
        simp [findSub, List.isPrefixOf, zeroSep]
      have hfind : findSub zeroSep (':' :: ' ' :: (T ++ ':' :: (['0'] ++ ';' :: cmd)))
          = some 12 := by
        rw [findSub_cons_neg
          (show zeroSep.isPrefixOf (':' :: ' ' :: (T ++ ':' :: (['0'] ++ ';' :: cmd))) = false
            from rfl)]
        rw [findSub_cons_neg
          (show zeroSep.isPrefixOf (' ' :: (T ++ ':' :: (['0'] ++ ';' :: cmd))) = false
            from rfl)]
        rw [findSub_digits (show zeroSep.head? = some ':' from rfl) (by decide) T
          (':' :: (['0'] ++ ';' :: cmd)) hTd2]
        rw [hrest]
        simp [hT10]
      have hline15 : (':' :: ' ' :: (T ++ ':' :: (['0'] ++ ';' :: cmd)))
          = (':' :: ' ' :: (T ++ [':', '0', ';'])) ++ cmd := by simp
      have hdropc : (':' :: ' ' :: (T ++ ':' :: (['0'] ++ ';' :: cmd))).drop (12 + 3) = cmd := by
        rw [hline15,
          show (12 + 3 : Nat) = (':' :: ' ' :: (T ++ [':', '0', ';'])).length from by
            simp [hT10],
          List.drop_left]
      simp only [zshLocateCmd, hfind]
      rw [hdropc, hstripc]
    · have hcontB : pyContains zeroSep cmd = false := hsep.resolve_left hD0
      have hnp3 : zeroSep.isPrefixOf (':' :: (D ++ ';' :: cmd)) = false := by
        obtain ⟨d, D2, rfl⟩ := List.exists_cons_of_ne_nil hD
        by_cases hd0 : d = '0'
        · subst hd0
          have hD2 : D2 ≠ [] := by
            rintro rfl
            exact hD0 rfl
          obtain ⟨d2, D3, rfl⟩ := List.exists_cons_of_ne_nil hD2
          have hd2 : pyIsDigit d2 = true := hDd2 d2 (by simp)
          have hne2 : ((';' : Char) == d2) = false := by
            rw [beq_eq_false_iff_ne]
            rintro rfl
            exact absurd hd2 (by decide)
          simp [zeroSep, List.isPrefixOf, hne2]
        · have hne2 : (('0' : Char) == d) = false := by
            rw [beq_eq_false_iff_ne]
            exact fun h => hd0 h.symm
          simp [zeroSep, List.isPrefixOf, hne2]
      have hnone : findSub zeroSep cmd = none := by
        cases hfc : findSub zeroSep cmd with
        | none => rfl
        | some v =>
            unfold pyContains at hcontB
            rw [hfc] at hcontB
            exact absurd hcontB (by simp)
      have hchain : findSub zeroSep (D ++ ';' :: cmd) = none := by
        rw [findSub_digits (show zeroSep.head? = some ':' from rfl) (by decide) D
          (';' :: cmd) hDd2]
        rw [findSub_cons_neg (show zeroSep.isPrefixOf (';' :: cmd) = false from rfl)]
        rw [hnone]
        rfl
      have hfindB : findSub zeroSep (':' :: ' ' :: (T ++ ':' :: (D ++ ';' :: cmd)))
          = none := by
        rw [findSub_cons_neg
          (show zeroSep.isPrefixOf (':' :: ' ' :: (T ++ ':' :: (D ++ ';' :: cmd))) = false
            from rfl)]
        rw [findSub_cons_neg
          (show zeroSep.isPrefixOf (' ' :: (T ++ ':' :: (D ++ ';' :: cmd))) = false
            from rfl)]
        rw [findSub_digits (show zeroSep.head? = some ':' from rfl) (by decide) T
          (':' :: (D ++ ';' :: cmd)) hTd2]
        rw [findSub_cons_neg hnp3, hchain]
        rfl
      have htw : (D ++ ';' :: cmd).takeWhile pyIsDigit = D := by
        rw [List.takeWhile_append, takeWhile_eq_self_of_all hDd2]
        simp [List.takeWhile_cons]
        decide
      have hDne2 : D.isEmpty = false := by
        cases hx : D with
        | nil => exact absurd hx hD
        | cons a b => rfl
      have hdropD : (D ++ ';' :: cmd).drop D.length = ';' :: cmd := List.drop_left D _
      have hdur : durMatchLen (':' :: ' ' :: (T ++ ':' :: (D ++ ';' :: cmd)))
          = some (14 + D.length) := by
        simp only [durMatchLen, htake, hdrop, htw, hdropD]
        simp [hT10, hTd, hDne2]
      have hsd : searchDurEnd (':' :: ' ' :: (T ++ ':' :: (D ++ ';' :: cmd)))
          = some (14 + D.length) := by
        simp only [searchDurEnd, hdur]
      have hdropc : (':' :: ' ' :: (T ++ ':' :: (D ++ ';' :: cmd))).drop (14 + D.length)
          = cmd := by
        rw [hPline,
          show (14 + D.length : Nat) = (':' :: ' ' :: (T ++ ':' :: (D ++ [';']))).length
            from by simp [hT10]; omega,
          List.drop_left]
      simp [zshLocateCmd, hfindB, hsd, hdropc, hstripc]
  simp only [parse_zsh_line, hstrip, List.isEmpty_cons, Bool.false_eq_true, if_false,
    hsearch, dateRejects, hcont, hloc, hbe, hee, if_true]

/-- Claim C1, witness for the amended statement: the concrete line
`: 1234567890:0;ls` parses to the `ls` record with timestamp
1234567890. -/
theorem freq_c1_witness :
    parse_zsh_line false none none
        [':', ' ', '1', '2', '3', '4', '5', '6', '7', '8', '9', '0', ':', '0', ';', 'l', 's']
      = some (extract_command ['l', 's'] false,
          ((digitsToNat ['1', '2', '3', '4', '5', '6', '7', '8', '9', '0'] : Nat) : Int)) :=
  freq_c1_amended false ['1', '2', '3', '4', '5', '6', '7', '8', '9', '0'] ['0'] ['l', 's']
    (by decide) (by decide) (by decide) (by decide) (by decide) (by decide) (by decide)
    (Or.inl rfl)

lemma dateRejects_none (t : Int) : dateRejects none t = false := rfl

lemma parse_zsh_line_as_filter (fm : Bool) (df : DateFilter) (cf : Option Str) (raw : Str) :
    parse_zsh_line fm df cf raw
      = (parse_zsh_line fm none none raw).bind
          (fun r => if !dateRejects df r.2 && cmdKeeps cf r.1 then some r else none) := by
  simp only [parse_zsh_line]
  cases his : (pyStrip raw).isEmpty with
  | true => simp [his]
  | false =>
      cases hts : searchTs (pyStrip raw) with
      | none => simp [his, hts]
      | some td =>
          cases hpc : pyContains [';'] (pyStrip raw) with
          | false => simp [his, hts, hpc, dateRejects_none]
          | true =>
              cases hloc : zshLocateCmd (pyStrip raw) with
              | none => simp [his, hts, hpc, hloc, dateRejects_none]
              | some fc =>
                  cases hfe : fc.isEmpty with
                  | true => simp [his, hts, hpc, hloc, hfe, dateRejects_none]
                  | false =>
                      cases hce : (extract_command fc fm).isEmpty with
                      | true => simp [his, hts, hpc, hloc, hfe, hce, dateRejects_none]
                      | false =>
                          cases hdr : dateRejects df ((digitsToNat td : Nat) : Int) with
                          | true =>
                              cases cf with
                              | none =>
                                  simp [his, hts, hpc, hloc, hfe, hce, hdr,
                                    dateRejects_none, cmdKeeps]
                              | some filt =>
                                  cases hcm : cmdMatches filt (extract_command fc fm) <;>
                                    simp [his, hts, hpc, hloc, hfe, hce, hdr, hcm,
                                      dateRejects_none, cmdKeeps]
                          | false =>
                              cases cf with
                              | none =>
                                  simp [his, hts, hpc, hloc, hfe, hce, hdr,
                                    dateRejects_none, cmdKeeps]
                              | some filt =>
                                  cases hcm : cmdMatches filt (extract_command fc fm) <;>
                                    simp [his, hts, hpc, hloc, hfe, hce, hdr, hcm,
                                      dateRejects_none, cmdKeeps]

lemma filterMap_bind_filter {α β : Type} (f : α → Option β) (p : β → Bool)
    (lines : List α) :
    lines.filterMap (fun a => (f a).bind (fun r => if p r then some r else none))
      = (lines.filterMap f).filter p := by
  induction lines with
  | nil => rfl
  | cons a rest ih =>
      simp only [List.filterMap_cons]
      cases hfa : f a with
      | none => simpa using ih
      | some r =>
          cases hpr : p r with
          | false => simp [hpr, List.filter_cons, ih]
          | true => simp [hpr, List.filter_cons, ih]

lemma posthocCompose (df : DateFilter) (cf : Option Str) (h : List HistRec) :
    posthocCommandFilter cf (posthocDateFilter df h)
      = h.filter (fun r => !dateRejects df r.2 && cmdKeeps cf r.1) := by
  cases df with
  | none =>
      cases cf with
      | none => simp [posthocCommandFilter, posthocDateFilter, dateRejects_none, cmdKeeps]
      | some filt => simp [posthocCommandFilter, posthocDateFilter, dateRejects_none, cmdKeeps]
  | some se =>
      obtain ⟨s, e⟩ := se
      cases cf with
      | none => simp [posthocCommandFilter, posthocDateFilter, cmdKeeps]
      | some filt =>
          simp only [posthocCommandFilter, posthocDateFilter, cmdKeeps]
          rw [List.filter_filter]
          exact List.filter_congr (fun r _ => by rw [Bool.and_comm])

lemma parse_bash_step_shift (fm : Bool) (df : DateFilter) (cf : Option Str) (clk : Int)
    (st : Option Int × List HistRec) (raw : Str) :
    parse_bash_step fm df cf clk st raw
      = ((parse_bash_step fm df cf clk (st.1, []) raw).1,
          st.2 ++ (parse_bash_step fm df cf clk (st.1, []) raw).2) := by
  obtain ⟨cur, acc⟩ := st
  simp only [parse_bash_step]
  split
  · simp
  · split
    · simp
    · split
      · simp
      · split
        · simp
        · split
          · split
            · simp
            · simp
          · simp

lemma parse_bash_step_filter (fm : Bool) (df : DateFilter) (cf : Option Str) (clk : Int)
    (cur : Option Int) (raw : Str) :
    parse_bash_step fm df cf clk (cur, []) raw
      = ((parse_bash_step fm none none clk (cur, []) raw).1,
          (parse_bash_step fm none none clk (cur, []) raw).2.filter
            (fun r => !dateRejects df r.2 && cmdKeeps cf r.1)) := by
  simp only [parse_bash_step]
  cases hmk : markerTest (pyStrip raw) with
  | true => simp [hmk]
  | false =>
      cases hie : (pyStrip raw).isEmpty with
      | true => simp [hmk, hie]
      | false =>
          have hne : pyStrip raw ≠ [] := by
            intro h0
            rw [h0] at hie
            simp at hie
          have hce : (extract_command (pyStrip raw) fm).isEmpty = false := by
            cases hE : extract_command (pyStrip raw) fm with
            | nil => exact absurd hE (extract_command_ne_nil fm hne (head?_pyStrip raw))
            | cons a b => rfl
          simp only [hmk, hie, Bool.false_eq_true, if_false, hce]
          cases cur with
          | none =>
              cases hdr : dateRejects df clk with
              | true => simp [dateRejects_none, cmdKeeps, hdr]
              | false =>
                  cases cf with
                  | none => simp [dateRejects_none, cmdKeeps, hdr]
                  | some filt =>
                      cases hcm : cmdMatches filt (extract_command (pyStrip raw) fm) <;>
                        simp [dateRejects_none, cmdKeeps, hdr, hcm]
          | some v =>
              cases hv : (v == (0 : Int)) with
              | true =>
                  cases hdr : dateRejects df clk with
                  | true => simp [dateRejects_none, cmdKeeps, hv, hdr]
                  | false =>
                      cases cf with
                      | none => simp [dateRejects_none, cmdKeeps, hv, hdr]
                      | some filt =>
                          cases hcm : cmdMatches filt (extract_command (pyStrip raw) fm) <;>
                            simp [dateRejects_none, cmdKeeps, hv, hdr, hcm]
              | false =>
                  cases hdr : dateRejects df v with
                  | true => simp [dateRejects_none, cmdKeeps, hv, hdr]
                  | false =>
                      cases cf with
                      | none => simp [dateRejects_none, cmdKeeps, hv, hdr]
                      | some filt =>
                          cases hcm : cmdMatches filt (extract_command (pyStrip raw) fm) <;>
                            simp [dateRejects_none, cmdKeeps, hv, hdr, hcm]

lemma parse_bash_fold_shift (fm : Bool) (df : DateFilter) (cf : Option Str) (clk : Int) :
    ∀ (lines : List Str) (st : Option Int × List HistRec),
      lines.foldl (parse_bash_step fm df cf clk) st
        = ((lines.foldl (parse_bash_step fm df cf clk) (st.1, [])).1,
            st.2 ++ (lines.foldl (parse_bash_step fm df cf clk) (st.1, [])).2) := by
  intro lines
  induction lines with
  | nil => intro st; simp
  | cons raw rest ih =>
      intro st
      rw [List.foldl_cons, List.foldl_cons, parse_bash_step_shift fm df cf clk st raw]
      rw [ih ((parse_bash_step fm df cf clk (st.1, []) raw).1,
        st.2 ++ (parse_bash_step fm df cf clk (st.1, []) raw).2)]
      rw [ih (parse_bash_step fm df cf clk (st.1, []) raw)]
      simp [List.append_assoc]

lemma parse_bash_fold_filter (fm : Bool) (df : DateFilter) (cf : Option Str) (clk : Int) :
    ∀ (lines : List Str) (cur : Option Int),
      lines.foldl (parse_bash_step fm df cf clk) (cur, [])
        = ((lines.foldl (parse_bash_step fm none none clk) (cur, [])).1,
            (lines.foldl (parse_bash_step fm none none clk) (cur, [])).2.filter
              (fun r => !dateRejects df r.2 && cmdKeeps cf r.1)) := by
  intro lines
  induction lines with
  | nil => intro cur; simp
  | cons raw rest ih =>
      intro cur
      rw [List.foldl_cons, List.foldl_cons, parse_bash_step_filter fm df cf clk cur raw]
      rw [parse_bash_fold_shift fm df cf clk rest]
      rw [ih]
      rw [parse_bash_fold_shift fm none none clk rest
        (parse_bash_step fm none none clk (cur, []) raw)]
      simp [List.filter_append]

/-- Claim C3: for every history (as a list of lines), every date filter,
every command filter and a fixed reference wall clock, parsing with the
early in-parser filters produces exactly the same record sequence as
parsing with no early filters and applying the post-hoc date filter of
`main` followed by the per-command selection of `run_analysis`. -/
theorem freq_c3_early_filter_refinement (fm : Bool) (df : DateFilter) (cf : Option Str)
    (clk : Int) (lines : List Str) :
    parse_zsh_history fm df cf lines
        = posthocCommandFilter cf
            (posthocDateFilter df (parse_zsh_history fm none none lines))
  ∧ parse_bash_history fm df cf clk lines
        = posthocCommandFilter cf
            (posthocDateFilter df (parse_bash_history fm none none clk lines)) := by
  constructor
  · rw [posthocCompose]
    unfold parse_zsh_history
    rw [← filterMap_bind_filter (parse_zsh_line fm none none)
      (fun r => !dateRejects df r.2 && cmdKeeps cf r.1) lines]
    exact congrArg (fun f => lines.filterMap f)
      (funext fun raw => parse_zsh_line_as_filter fm df cf raw)
  · rw [posthocCompose]
    unfold parse_bash_history
    rw [parse_bash_fold_filter fm df cf clk lines none]

lemma corrLookup_bump (tbl : List (Str × Nat)) (k c : Str) :
    corrLookup (corrBump tbl k) c = corrLookup tbl c + (if k == c then 1 else 0) := by
  induction tbl with
  | nil => simp [corrBump, corrLookup]
  | cons kv rest ih =>
      obtain ⟨k2, v⟩ := kv
      simp only [corrBump]
      cases hk : (k2 == k) with
      | true =>
          have hk2 : k2 = k := by simpa using hk
          subst hk2
          simp only [if_true, corrLookup]
          cases hc2 : (k2 == c) with
          | true => simp [hc2]
          | false => simp [hc2]
      | false =>
          simp only [hk, Bool.false_eq_true, if_false, corrLookup]
          cases hc2 : (k2 == c) with
          | true =>
              have hc3 : k2 = c := by simpa using hc2
              have hkc : (k == c) = false := by
                rw [beq_eq_false_iff_ne]
                rintro rfl
                simp [hc3] at hk
              simp [hc2, hkc]
          | false => simp [hc2, ih]

lemma corrLookup_inner (s : List HistRec) (target : Str) (w : Int) (i : Nat) (t : Int)
    (c : Str) :
    ∀ (js : List Nat) (tbl : List (Str × Nat)),
      corrLookup (js.foldl (corrInnerStep s target w i t) tbl) c
        = corrLookup tbl c + js.countP (corrJHit s target w i t c) := by
  intro js
  induction js with
  | nil => intro tbl; simp
  | cons j rest ih =>
      intro tbl
      rw [List.foldl_cons, ih, List.countP_cons]
      simp only [corrInnerStep, corrJHit]
      rcases Bool.eq_false_or_eq_true (i == j) with hij | hij
      · simp [hij]
      · simp only [hij, Bool.false_eq_true, if_false, Bool.not_false, Bool.true_and]
        cases hsj : s[j]? with
        | none => simp
        | some r =>
            obtain ⟨oc, ot⟩ := r
            rcases Bool.eq_false_or_eq_true (decide (|ot - t| ≤ w) && !(oc == target))
              with habs | habs
            · simp only [habs, if_true, Bool.true_and]
              rw [corrLookup_bump]
              rcases Bool.eq_false_or_eq_true (oc == c) with hocc | hocc
              · simp [hocc]
                omega
              · simp [hocc]
            · simp [habs]

lemma corrLookup_outer (s : List HistRec) (target : Str) (w : Int) (c : Str) :
    ∀ (is2 : List Nat) (tbl : List (Str × Nat)),
      corrLookup (is2.foldl (corrOuterStep s target w) tbl) c
        = corrLookup tbl c + (is2.map (corrICount s target w c)).sum := by
  intro is2
  induction is2 with
  | nil => intro tbl; simp
  | cons i rest ih =>
      intro tbl
      rw [List.foldl_cons, ih, List.map_cons, List.sum_cons]
      simp only [corrOuterStep, corrICount]
      cases hsi : s[i]? with
      | none => simp
      | some r =>
          obtain ⟨cmd, t⟩ := r
          rcases Bool.eq_false_or_eq_true (cmd == target) with hct | hct
          · simp only [hct, if_true]
            rw [corrLookup_inner]
            omega
          · simp [hct]

lemma filter_range_eq_range' (a b : Nat) :
    ∀ n : Nat, (List.range n).filter (fun j => decide (a ≤ j) && decide (j < b))
      = List.range' a (min n b - a) := by
  intro n
  induction n with
  | zero => simp
  | succ n ih =>
      rw [List.range_succ, List.filter_append, ih]
      simp only [List.filter_cons, List.filter_nil]
      by_cases h1 : a ≤ n
      · by_cases h2 : n < b
        · rw [if_pos (by simp [h1, h2])]
          rw [show min (n + 1) b - a = (min n b - a) + 1 from by omega]
          rw [List.range'_concat]
          have h3 : a + 1 * (min n b - a) = n := by omega
          rw [h3]
        · rw [if_neg (by simp [h2])]
          rw [show min (n + 1) b - a = min n b - a from by omega]
          simp
      · rw [if_neg (by simp [h1])]
        rw [show min (n + 1) b - a = min n b - a from by omega]
        simp


lemma corrICount_spec (s : List HistRec) (target : Str) (w : Int) (c : Str)
    (i : Nat) (hi : i < s.length) :
    corrICount s target w c i
      = (List.range s.length).countP (fun j => corrPairHit s target w c (i, j)) := by
  cases hsi : s[i]? with
  | none => exact absurd hsi (by simp [List.getElem?_eq_getElem hi])
  | some r =>
      obtain ⟨ci, ti⟩ := r
      simp only [corrICount, hsi]
      rcases Bool.eq_false_or_eq_true (ci == target) with hct | hct
      · simp only [hct, if_true]
        rw [← filter_range_eq_range' (i - 10) (i + 11) s.length]
        rw [List.countP_filter]
        refine List.countP_congr ?_
        intro j hj
        rw [List.mem_range] at hj
        cases hsj : s[j]? with
        | none => exact absurd hsj (by simp [List.getElem?_eq_getElem hj])
        | some r2 =>
            obtain ⟨cj, tj⟩ := r2
            simp only [corrJHit, corrPairHit, hsi, hsj, hct, Bool.and_eq_true,
              decide_eq_true_eq, beq_iff_eq, true_and]
            constructor
            · rintro ⟨⟨hne, ⟨habs, hnt⟩, hcc⟩, hw1, hw2⟩
              exact ⟨⟨⟨hne, by omega⟩, by omega⟩, ⟨hcc, hnt⟩, habs⟩
            · rintro ⟨⟨⟨hne, hw1⟩, hw2⟩, ⟨hcc, hnt⟩, habs⟩
              exact ⟨⟨hne, ⟨habs, hnt⟩, hcc⟩, by omega, by omega⟩
      · simp only [hct, Bool.false_eq_true, if_false]
        symm
        rw [List.countP_eq_zero]
        intro j hj
        cases hsj : s[j]? with
        | none => simp [corrPairHit, hsi, hsj]
        | some r2 =>
            obtain ⟨cj, tj⟩ := r2
            simp [corrPairHit, hsi, hsj, hct]

/-- Claim C4: correlation analysis first sorts the records by timestamp
ascending (stably); the tally of each command `c` equals the number of
index pairs `(i, j)` in the sorted sequence where `i` holds the target,
`j` lies within sequence-index distance 10 of `i` (excluding `i`), the
timestamps differ by at most the window (`≤`, so a difference of exactly
the window is included and window + 1 excluded), and `j` holds `c`,
different from the target; and the reported result (default window 300)
is the top 5 tallied commands by tally descending. -/
theorem freq_c4_correlations (h : List HistRec) (target c : Str) (w : Int) :
    corrLookup (get_command_correlations h target w) c
        = corrSpecCount (sortByTime h) target w c
  ∧ List.Pairwise (fun a b : HistRec => a.2 ≤ b.2) (sortByTime h)
  ∧ List.Pairwise (fun a b : Str × Nat => b.2 ≤ a.2) (topCorrelations h target)
  ∧ (topCorrelations h target).length ≤ 5
  ∧ (∀ x ∈ topCorrelations h target, x ∈ get_command_correlations h target 300)
  ∧ (∀ y ∈ get_command_correlations h target 300, y ∉ topCorrelations h target →
      ∀ x ∈ topCorrelations h target, y.2 ≤ x.2) := by
  haveI htot : IsTotal HistRec (fun a b : HistRec => a.2 ≤ b.2) :=
    ⟨fun a b => le_total a.2 b.2⟩
  haveI htr : IsTrans HistRec (fun a b : HistRec => a.2 ≤ b.2) :=
    ⟨fun a b c2 hab hbc => le_trans hab hbc⟩
  haveI htot2 : IsTotal (Str × Nat) (fun a b : Str × Nat => b.2 ≤ a.2) :=
    ⟨fun a b => (le_total a.2 b.2).symm⟩
  haveI htr2 : IsTrans (Str × Nat) (fun a b : Str × Nat => b.2 ≤ a.2) :=
    ⟨fun a b c2 hab hbc => le_trans hbc hab⟩
  have hsorted2 : List.Pairwise (fun a b : Str × Nat => b.2 ≤ a.2)
      (List.insertionSort (fun a b : Str × Nat => b.2 ≤ a.2)
        (get_command_correlations h target 300)) :=
    List.sorted_insertionSort _ _
  refine ⟨?_, ?_, ?_, ?_, ?_, ?_⟩
  · simp only [get_command_correlations, corrSpecCount, allPairs]
    rw [corrLookup_outer]
    rw [List.countP_flatMap]
    simp only [corrLookup, Nat.zero_add]
    congr 1
    refine List.map_congr_left ?_
    intro i hi
    rw [List.mem_range] at hi
    rw [corrICount_spec (sortByTime h) target w c i hi]
    simp only [Function.comp_apply, List.countP_map]
    rfl
  · have hs := List.sorted_insertionSort (fun a b : HistRec => a.2 ≤ b.2) h
    simpa [sortByTime, List.Sorted] using hs
  · simp only [topCorrelations]
    exact List.Pairwise.sublist (List.take_sublist 5 _) hsorted2
  · simp only [topCorrelations]
    exact List.length_take_le 5 _
  · intro x hx
    simp only [topCorrelations] at hx
    have hx2 : x ∈ List.insertionSort (fun a b : Str × Nat => b.2 ≤ a.2)
        (get_command_correlations h target 300) := (List.take_sublist 5 _).subset hx
    exact (List.perm_insertionSort _ _).mem_iff.mp hx2
  · intro y hy hynot x hx
    simp only [topCorrelations] at hynot hx
    have hyL : y ∈ List.insertionSort (fun a b : Str × Nat => b.2 ≤ a.2)
        (get_command_correlations h target 300) :=
      (List.perm_insertionSort _ _).mem_iff.mpr hy
    rw [← List.take_append_drop 5 (List.insertionSort (fun a b : Str × Nat => b.2 ≤ a.2)
      (get_command_correlations h target 300))] at hyL
    rcases List.mem_append.mp hyL with hyTake | hyDrop
    · exact absurd hyTake hynot
    · have hp2 : List.Pairwise (fun a b : Str × Nat => b.2 ≤ a.2)
          ((List.insertionSort (fun a b : Str × Nat => b.2 ≤ a.2)
              (get_command_correlations h target 300)).take 5 ++
            (List.insertionSort (fun a b : Str × Nat => b.2 ≤ a.2)
              (get_command_correlations h target 300)).drop 5) := by
        rw [List.take_append_drop]
        exact hsorted2
      exact (List.pairwise_append.mp hp2).2.2 x hx y hyDrop

/-- Claim C4, witness: a concrete history with one `g` occurrence and six
distinct neighbors; the tally of `a` matches the pair count, and the
sixth-ranked command `f`, absent from the top 5, has a tally no larger
than any reported one. -/
theorem freq_c4_witness :
    corrLookup
        (get_command_correlations
          [(['g'], (0 : Int)), (['a'], 1), (['b'], 2), (['c'], 3), (['d'], 4),
            (['e'], 5), (['f'], 6)] ['g'] 300) ['a']
      = corrSpecCount
          (sortByTime
            [(['g'], (0 : Int)), (['a'], 1), (['b'], 2), (['c'], 3), (['d'], 4),
              (['e'], 5), (['f'], 6)]) ['g'] 300 ['a']
  ∧ (∀ x ∈ topCorrelations
        [(['g'], (0 : Int)), (['a'], 1), (['b'], 2), (['c'], 3), (['d'], 4),
          (['e'], 5), (['f'], 6)] ['g'],
      (1 : Nat) ≤ x.2) :=
  ⟨(freq_c4_correlations
      [(['g'], (0 : Int)), (['a'], 1), (['b'], 2), (['c'], 3), (['d'], 4),
        (['e'], 5), (['f'], 6)] ['g'] ['a'] 300).1,
   fun x hx =>
     (freq_c4_correlations
        [(['g'], (0 : Int)), (['a'], 1), (['b'], 2), (['c'], 3), (['d'], 4),
          (['e'], 5), (['f'], 6)] ['g'] ['a'] 300).2.2.2.2.2
       (['f'], 1) (by decide) (by decide) x hx⟩
